import Mathlib

/-!
# StreetSmart streetlamp-density pipeline: verification development

A shallow embedding of the three Python scripts of the StreetSmart
repository:

* `calculate-segment-lengths.py`   (Length Calculator)
* `calculate-streetlamp-density.py` (Lamp Aggregator + Density Joiner)
* `analyze_zero_lamp_segments.py`  (Segment Analyzer)

Python property values read from GeoJSON via `json`/`ijson` are modelled by
`PVal` (null, string, or number — `ijson` yields `Decimal`, an exact
rational, so numbers are modelled by `ℚ`).  Python `dict`s are modelled by
association lists with first-occurrence update (`dictSet`), matching
insertion-order semantics.  Fallible code (exceptions that abort the run)
is modelled with `Except Unit`.  The external geodesic distance function of
`geopy` is a parameter `d : ℚ × ℚ → ℚ × ℚ → ℚ` throughout.
-/

namespace StreetSmart

/-- A Python value stored in a feature's `properties` mapping: `None`,
a string, or a number (`ijson` parses JSON numbers as `Decimal`, an exact
decimal rational). -/
inductive PVal where
  | vnone
  | vstr (s : String)
  | vnum (q : ℚ)
deriving DecidableEq

/-- Python `str()` of a property value: `str(None) = "None"`, strings are
unchanged, and a numeric value is rendered in decimal. -/
def pyStr : PVal → String
  | .vnone => "None"
  | .vstr s => s
  | .vnum q => if q.den = 1 then toString q.num else toString q

/-- Python truthiness of a property value: `None` is falsy, a string is
truthy iff non-empty, a number is truthy iff non-zero. -/
def pyTruthy : PVal → Bool
  | .vnone => false
  | .vstr s => s ≠ ""
  | .vnum q => q ≠ 0

/-- Python `dict` assignment `m[k] = v` on an association list: replaces
the value at the first occurrence of `k` (keeping key order), appends
`(k, v)` when `k` is absent. -/
def dictSet {κ α : Type} [BEq κ] : List (κ × α) → κ → α → List (κ × α)
  | [], k, v => [(k, v)]
  | (k₁, v₁) :: rest, k, v =>
      if k₁ == k then (k, v) :: rest else (k₁, v₁) :: dictSet rest k v

/-- Python `m.get(k, 0)` on a counting dict. -/
def getCount {κ : Type} [BEq κ] (m : List (κ × ℕ)) (k : κ) : ℕ :=
  (m.lookup k).getD 0

/-- Sum of all values of a counting dict (the total of all counts). -/
def sumValues {κ : Type} (m : List (κ × ℕ)) : ℕ :=
  (m.map Prod.snd).sum

/-- Keys of a dict, in insertion order. -/
def dictKeys {κ α : Type} (m : List (κ × α)) : List κ :=
  m.map Prod.fst

theorem lookup_dictSet {κ α : Type} [BEq κ] [LawfulBEq κ]
    (m : List (κ × α)) (k k₁ : κ) (v : α) :
    (dictSet m k v).lookup k₁ = if k₁ == k then some v else m.lookup k₁ := by
  induction m with
  | nil =>
      by_cases h1 : k₁ = k
      · subst h1; simp [dictSet, List.lookup]
      · simp [dictSet, List.lookup, beq_eq_false_iff_ne.mpr h1]
  | cons hd tl ih =>
      obtain ⟨k₂, v₂⟩ := hd
      by_cases h2 : k₂ = k
      · subst h2
        simp only [dictSet, beq_self_eq_true, if_true]
        by_cases h1 : k₁ = k₂
        · subst h1; simp [List.lookup]
        · simp [List.lookup, beq_eq_false_iff_ne.mpr h1]
      · simp only [dictSet, beq_eq_false_iff_ne.mpr h2, Bool.false_eq_true,
          if_false]
        by_cases h1 : k₁ = k₂
        · subst h1
          simp [List.lookup, beq_eq_false_iff_ne.mpr h2]
        · simp [List.lookup, beq_eq_false_iff_ne.mpr h1, ih]

theorem mem_dictKeys_dictSet {κ α : Type} [BEq κ] [LawfulBEq κ]
    (m : List (κ × α)) (k k₁ : κ) (v : α) :
    k₁ ∈ dictKeys (dictSet m k v) ↔ k₁ ∈ dictKeys m ∨ k₁ = k := by
  induction m with
  | nil => simp [dictSet, dictKeys]
  | cons hd tl ih =>
      obtain ⟨k₂, v₂⟩ := hd
      by_cases h2 : k₂ = k
      · subst h2
        simp only [dictSet, beq_self_eq_true, if_true, dictKeys,
          List.map_cons, List.mem_cons]
        tauto
      · simp only [dictSet, beq_eq_false_iff_ne.mpr h2, Bool.false_eq_true,
          if_false, dictKeys, List.map_cons, List.mem_cons] at ih ⊢
        rw [ih]
        tauto

theorem nodup_dictKeys_dictSet {κ α : Type} [BEq κ] [LawfulBEq κ]
    (m : List (κ × α)) (k : κ) (v : α)
    (h : (dictKeys m).Nodup) : (dictKeys (dictSet m k v)).Nodup := by
  induction m with
  | nil => simp [dictSet, dictKeys]
  | cons hd tl ih =>
      obtain ⟨k₂, v₂⟩ := hd
      simp only [dictKeys, List.map_cons, List.nodup_cons] at h
      by_cases h2 : k₂ = k
      · subst h2
        simpa [dictSet, dictKeys, beq_self_eq_true] using h
      · simp only [dictSet, beq_eq_false_iff_ne.mpr h2, Bool.false_eq_true,
          if_false, dictKeys, List.map_cons, List.nodup_cons]
        refine ⟨fun hmem => ?_, ih h.2⟩
        rw [show (dictSet tl k v).map Prod.fst = dictKeys (dictSet tl k v) from rfl,
          mem_dictKeys_dictSet] at hmem
        rcases hmem with hmem | hmem
        · exact h.1 hmem
        · exact h2 hmem

/-!
## Lamp Aggregator (`calculate-streetlamp-density.py`, step 1)

A fixture row is modelled by the value of `row.get('STREETSEGMID')`:
`none` when the column is missing, `some s` for the cell's string (CSV
cells are always strings).  The loop
`if segid: lamp_counts[segid] = lamp_counts.get(segid, 0) + 1`
skips falsy identifiers, i.e. both `None` and the empty string.
-/

/-- One aggregation step of the lamp-counting loop. -/
def lampStep (m : List (String × ℕ)) (r : Option String) : List (String × ℕ) :=
  match r with
  | some s => if s = "" then m else dictSet m s (getCount m s + 1)
  | none => m

/-- `lamp_counts`: fold of `lampStep` over the fixture rows, starting from
the empty dict. -/
def lampCounts (rows : List (Option String)) : List (String × ℕ) :=
  rows.foldl lampStep []

/-- A row participates in the count iff its identifier field is present
and non-empty (Python truthiness of the cell). -/
def validRow : Option String → Bool
  | some s => s ≠ ""
  | none => false

theorem getCount_lampStep (m : List (String × ℕ)) (r : Option String)
    (k : String) :
    getCount (lampStep m r) k =
      getCount m k + (if r = some k ∧ k ≠ "" then 1 else 0) := by
  match r with
  | none => simp [lampStep]
  | some s =>
      by_cases hs : s = ""
      · subst hs
        simp only [lampStep, if_true]
        have : ¬(some "" = some k ∧ k ≠ "") := by
          rintro ⟨hk, hne⟩
          exact hne (Option.some.inj hk).symm
        rw [if_neg this, Nat.add_zero]
      · simp only [lampStep, hs, if_false]
        unfold getCount
        rw [lookup_dictSet]
        by_cases hk : k = s
        · subst hk
          simp [hs]
        · have : ¬(some s = some k ∧ k ≠ "") := by
            rintro ⟨hk2, _⟩
            exact hk (Option.some.inj hk2).symm
          simp only [beq_eq_false_iff_ne.mpr hk, Bool.false_eq_true, if_false,
            if_neg this, Nat.add_zero]

theorem sumValues_dictSet_succ (m : List (String × ℕ)) (k : String) :
    sumValues (dictSet m k (getCount m k + 1)) = sumValues m + 1 := by
  induction m with
  | nil => simp [dictSet, sumValues, getCount, List.lookup]
  | cons hd tl ih =>
      obtain ⟨k₂, v₂⟩ := hd
      by_cases h2 : k₂ = k
      · subst h2
        simp only [dictSet, beq_self_eq_true, if_true, sumValues,
          getCount, List.lookup, beq_self_eq_true]
        simp [List.map_cons, List.sum_cons]
        omega
      · have hne : (k == k₂) = false := beq_eq_false_iff_ne.mpr (fun h => h2 h.symm)
        have hne2 : (k₂ == k) = false := beq_eq_false_iff_ne.mpr h2
        simp only [dictSet, hne2, Bool.false_eq_true, if_false, sumValues,
          List.map_cons, List.sum_cons, getCount, List.lookup, hne] at ih ⊢
        omega

theorem sumValues_lampStep (m : List (String × ℕ)) (r : Option String) :
    sumValues (lampStep m r) = sumValues m + (if validRow r then 1 else 0) := by
  match r with
  | none => simp [lampStep, validRow]
  | some s =>
      by_cases hs : s = ""
      · subst hs; simp [lampStep, validRow]
      · simp [lampStep, hs, validRow, sumValues_dictSet_succ]

theorem sumValues_foldl_lampStep (rows : List (Option String))
    (m : List (String × ℕ)) :
    sumValues (rows.foldl lampStep m) = sumValues m + rows.countP validRow := by
  induction rows generalizing m with
  | nil => simp
  | cons r rest ih =>
      simp only [List.foldl_cons, List.countP_cons, ih, sumValues_lampStep]
      by_cases h : validRow r = true
      · simp only [h, if_true]
        omega
      · simp only [h, if_false]
        omega

/-- The total of all aggregated counts is the number of rows whose
identifier is present and non-empty. -/
theorem sumValues_lampCounts (rows : List (Option String)) :
    sumValues (lampCounts rows) = rows.countP validRow := by
  simpa [sumValues, lampCounts] using sumValues_foldl_lampStep rows []

theorem getCount_foldl_lampStep (rows : List (Option String))
    (m : List (String × ℕ)) (k : String) :
    getCount (rows.foldl lampStep m) k =
      getCount m k +
        (if k = "" then 0 else rows.countP (fun r => r == some k)) := by
  induction rows generalizing m with
  | nil => simp
  | cons r rest ih =>
      simp only [List.foldl_cons, List.countP_cons, ih, getCount_lampStep]
      by_cases hk : k = ""
      · simp [hk]
      · by_cases hr : r = some k
        · subst hr
          simp [hk]
          omega
        · have : (r == some k) = false := by
            cases r with
            | none => rfl
            | some s =>
                refine beq_eq_false_iff_ne.mpr ?_
                exact hr
          simp [hk, hr, this]

/-- The aggregated count at key `k` is the number of rows carrying exactly
identifier `k`; the empty key is never counted. -/
theorem getCount_lampCounts (rows : List (Option String)) (k : String) :
    getCount (lampCounts rows) k =
      if k = "" then 0 else rows.countP (fun r => r == some k) := by
  simpa [lampCounts, getCount, List.lookup] using getCount_foldl_lampStep rows [] k

/-!
## Length Calculator (`calculate-segment-lengths.py`)

A raw JSON ordinate is `JVal`: a number or anything else.  A coordinate
pair is a `List JVal`; unpacking it as `(lon, lat)` and feeding it to
`geopy`'s `geodesic` raises (fatally) unless it is a two-element list of
numbers.  The external geodesic distance is an arbitrary parameter
`d : ℚ × ℚ → ℚ × ℚ → ℚ` taking `(lat, lon)` points, exactly as the source
calls `geodesic((lat1, lon1), (lat2, lon2))` after unpacking `(lon, lat)`
pairs.
-/

/-- One raw JSON ordinate inside a coordinate pair: a number, or any
non-numeric value. -/
inductive JVal where
  | jnum (q : ℚ)
  | jother
deriving DecidableEq

/-- A feature's geometry as the Length Calculator's dispatch sees it:
`geom['type']` is `LineString`, `MultiLineString`, or anything else. -/
inductive Geom where
  | lineString (coords : List (List JVal))
  | multiLineString (parts : List (List (List JVal)))
  | other (typeName : String)
deriving DecidableEq

/-- A GeoJSON feature: its geometry and its `properties` dict. -/
structure Feature where
  geom : Geom
  props : List (String × PVal)
deriving DecidableEq

instance : Inhabited Feature := ⟨⟨Geom.other "", []⟩⟩

/-- Unpacking and validating one coordinate pair `(lon, lat)`: wrong arity
fails at tuple unpacking, a non-numeric ordinate fails inside `geodesic`;
both abort the run and are modelled as `Except` errors. -/
def parsePair : List JVal → Except Unit (ℚ × ℚ)
  | [.jnum lon, .jnum lat] => .ok (lon, lat)
  | _ => .error ()

/-- One term of the generator inside `linestring_length`: the geodesic
distance contributed by two consecutive coordinate pairs.  The source
unpacks `(lon, lat)` and calls `geodesic((lat1, lon1), (lat2, lon2))`, so
`d` receives `(lat, lon)` points. -/
def pairDist (d : ℚ × ℚ → ℚ × ℚ → ℚ) (ab : List JVal × List JVal) :
    Except Unit ℚ := do
  let p ← parsePair ab.1
  let q ← parsePair ab.2
  pure (d (p.2, p.1) (q.2, q.1))

/-- Left-to-right evaluation of a generator sequence, aborting at the
first raised error. -/
def exceptMap {α β : Type} (g : α → Except Unit β) :
    List α → Except Unit (List β)
  | [] => .ok []
  | x :: xs => do pure ((← g x) :: (← exceptMap g xs))

/-- `zip(l[:-1], l[1:])`: the list of consecutive pairs of `l`. -/
def consecPairs {α : Type} (l : List α) : List (α × α) :=
  l.dropLast.zip l.tail

/-- `linestring_length(coords)`: the sum of the geodesic distances over
`zip(coords[:-1], coords[1:])`. -/
def linestring_length (d : ℚ × ℚ → ℚ × ℚ → ℚ) (coords : List (List JVal)) :
    Except Unit ℚ :=
  (exceptMap (pairDist d) (consecPairs coords)).map List.sum

/-- The per-feature dispatch of the main loop: `length_m` starts at `0`;
a `LineString` gets `linestring_length`, the parts of a `MultiLineString`
are added one by one, and any other geometry type falls through with
`length_m` still `0`. -/
def processGeom (d : ℚ × ℚ → ℚ × ℚ → ℚ) : Geom → Except Unit ℚ
  | .lineString coords => linestring_length d coords
  | .multiLineString parts =>
      parts.foldlM (fun acc part => do pure (acc + (← linestring_length d part))) 0
  | .other _ => .ok 0

/-- The Length Calculator's per-feature property update:
`feature['properties']['segment_length_m'] = length_m`. -/
def lengthFeature (d : ℚ × ℚ → ℚ × ℚ → ℚ) (f : Feature) : Except Unit Feature :=
  (processGeom d f.geom).map
    (fun L => ⟨f.geom, dictSet f.props "segment_length_m" (.vnum L)⟩)

/-- The distance the source attributes to consecutive `(lon, lat)`
vertices `p`, `q`. -/
def gdist (d : ℚ × ℚ → ℚ × ℚ → ℚ) (p q : ℚ × ℚ) : ℚ :=
  d (p.2, p.1) (q.2, q.1)

/-- A well-formed coordinate pair `[lon, lat]` for the vertex `p`. -/
def wfPair (p : ℚ × ℚ) : List JVal := [.jnum p.1, .jnum p.2]

/-- Sum of consecutive-vertex distances of a vertex list. -/
def consecSum (d : ℚ × ℚ → ℚ × ℚ → ℚ) (pts : List (ℚ × ℚ)) : ℚ :=
  ((consecPairs pts).map (fun pq => gdist d pq.1 pq.2)).sum

theorem parsePair_wfPair (p : ℚ × ℚ) : parsePair (wfPair p) = .ok p := by
  obtain ⟨a, b⟩ := p
  rfl

theorem pairDist_wfPair (d : ℚ × ℚ → ℚ × ℚ → ℚ) (p q : ℚ × ℚ) :
    pairDist d (wfPair p, wfPair q) = .ok (gdist d p q) := by
  obtain ⟨a, b⟩ := p
  obtain ⟨c, e⟩ := q
  rfl

theorem consecPairs_cons_cons {α : Type} (a b : α) (rest : List α) :
    consecPairs (a :: b :: rest) = (a, b) :: consecPairs (b :: rest) := by
  cases rest <;> rfl

theorem exceptMap_cons {α β : Type} (g : α → Except Unit β) (x : α)
    (xs : List α) :
    exceptMap g (x :: xs) =
      (g x).bind (fun v => (exceptMap g xs).bind (fun vs => .ok (v :: vs))) := rfl

theorem linestring_length_cons_cons (d : ℚ × ℚ → ℚ × ℚ → ℚ)
    (a b : List JVal) (rest : List (List JVal)) :
    linestring_length d (a :: b :: rest) =
      (do
        let v ← pairDist d (a, b)
        let r ← linestring_length d (b :: rest)
        pure (v + r)) := by
  simp only [linestring_length, consecPairs_cons_cons, exceptMap_cons]
  cases hv : pairDist d (a, b) with
  | error e => rfl
  | ok v =>
      cases hr : exceptMap (pairDist d) (consecPairs (b :: rest)) with
      | error e => rfl
      | ok vs => rfl

theorem consecSum_cons_cons (d : ℚ × ℚ → ℚ × ℚ → ℚ) (p q : ℚ × ℚ)
    (rest : List (ℚ × ℚ)) :
    consecSum d (p :: q :: rest) = gdist d p q + consecSum d (q :: rest) := by
  simp [consecSum, consecPairs_cons_cons]

theorem linestring_length_wf (d : ℚ × ℚ → ℚ × ℚ → ℚ) (pts : List (ℚ × ℚ)) :
    linestring_length d (pts.map wfPair) = .ok (consecSum d pts) := by
  induction pts with
  | nil => rfl
  | cons p rest ih =>
      cases rest with
      | nil => rfl
      | cons q rest₂ =>
          have hmap : (p :: q :: rest₂).map wfPair =
              wfPair p :: wfPair q :: (rest₂.map wfPair) := rfl
          have htail : wfPair q :: (rest₂.map wfPair) =
              (q :: rest₂).map wfPair := rfl
          rw [hmap, linestring_length_cons_cons, pairDist_wfPair, htail, ih,
            consecSum_cons_cons]
          rfl

theorem linestring_length_short (d : ℚ × ℚ → ℚ × ℚ → ℚ)
    (coords : List (List JVal)) (h : coords.length ≤ 1) :
    linestring_length d coords = .ok 0 := by
  match coords, h with
  | [], _ => rfl
  | [c], _ => rfl

theorem consecSum_eq_sum_range (d : ℚ × ℚ → ℚ × ℚ → ℚ) (pts : List (ℚ × ℚ)) :
    consecSum d pts = ∑ i ∈ Finset.range (pts.length - 1),
      gdist d (pts.getD i (0, 0)) (pts.getD (i + 1) (0, 0)) := by
  induction pts with
  | nil => simp [consecSum, consecPairs]
  | cons p rest ih =>
      cases rest with
      | nil => simp [consecSum, consecPairs]
      | cons q rest₂ =>
          have hlen : (p :: q :: rest₂).length - 1 =
              ((q :: rest₂).length - 1) + 1 := by
            simp
          rw [hlen, Finset.sum_range_succ']
          have hstep : ∀ i : ℕ,
              (p :: q :: rest₂).getD (i + 1) (0, 0) =
                (q :: rest₂).getD i (0, 0) := by
            intro i
            rfl
          simp only [hstep]
          have h0 : (p :: q :: rest₂).getD 0 (0, 0) = p := rfl
          have h1 : (q :: rest₂).getD 0 (0, 0) = q := rfl
          rw [h0, consecSum_cons_cons, ih, h1]
          ring

theorem consecSum_nonneg (d : ℚ × ℚ → ℚ × ℚ → ℚ)
    (hd : ∀ p q : ℚ × ℚ, 0 ≤ d p q) (pts : List (ℚ × ℚ)) :
    0 ≤ consecSum d pts := by
  refine List.sum_nonneg ?_
  intro x hx
  simp only [List.mem_map] at hx
  obtain ⟨pq, _, rfl⟩ := hx
  exact hd _ _

theorem pairDist_error_left (d : ℚ × ℚ → ℚ × ℚ → ℚ) (a b : List JVal)
    (h : parsePair a = .error ()) : pairDist d (a, b) = .error () := by
  simp only [pairDist]
  rw [h]
  rfl

theorem pairDist_error_right (d : ℚ × ℚ → ℚ × ℚ → ℚ) (a b : List JVal)
    (h : parsePair b = .error ()) : pairDist d (a, b) = .error () := by
  cases ha : parsePair a with
  | error e => cases e; exact pairDist_error_left d a b ha
  | ok p =>
      simp only [pairDist]
      rw [ha, h]
      rfl

theorem linestring_length_error (d : ℚ × ℚ → ℚ × ℚ → ℚ)
    (coords : List (List JVal)) (hlen : 2 ≤ coords.length)
    (c : List JVal) (hc : c ∈ coords) (hbad : parsePair c = .error ()) :
    linestring_length d coords = .error () := by
  induction coords with
  | nil => simp at hlen
  | cons a rest ih =>
      cases rest with
      | nil => simp at hlen
      | cons b rest₂ =>
          rw [linestring_length_cons_cons]
          rcases List.mem_cons.mp hc with rfl | hc2
          · rw [pairDist_error_left d c b hbad]
            rfl
          · rcases List.mem_cons.mp hc2 with rfl | hc3
            · rw [pairDist_error_right d a c hbad]
              rfl
            · have hlen2 : 2 ≤ (b :: rest₂).length := by
                cases rest₂ with
                | nil => simp at hc3
                | cons x xs => simp
              have herr := ih hlen2 (List.mem_cons_of_mem b hc3)
              rw [herr]
              cases hv : pairDist d (a, b) with
              | error e => rfl
              | ok v => rfl

theorem processGeom_lineString (d : ℚ × ℚ → ℚ × ℚ → ℚ)
    (coords : List (List JVal)) :
    processGeom d (.lineString coords) = linestring_length d coords := rfl

theorem processGeom_other (d : ℚ × ℚ → ℚ × ℚ → ℚ) (t : String) :
    processGeom d (.other t) = .ok 0 := rfl

theorem except_bind_ok {ε α β : Type} (x : α) (k : α → Except ε β) :
    (Except.ok x >>= k) = k x := rfl

theorem except_pure {ε α : Type} (x : α) :
    (pure x : Except ε α) = Except.ok x := rfl

theorem except_pure_bind {ε α β : Type} (x : α) (k : α → Except ε β) :
    ((pure x : Except ε α) >>= k) = k x := rfl

theorem foldlM_parts_wf (d : ℚ × ℚ → ℚ × ℚ → ℚ)
    (partsP : List (List (ℚ × ℚ))) : ∀ acc : ℚ,
    List.foldlM (fun acc part => do pure (acc + (← linestring_length d part)))
        acc (partsP.map (fun pp => pp.map wfPair)) =
      .ok (acc + (partsP.map (consecSum d)).sum) := by
  induction partsP with
  | nil => intro acc; simp [except_pure]
  | cons pp rest ih =>
      intro acc
      simp only [List.map_cons, List.foldlM_cons, linestring_length_wf,
        List.sum_cons, except_bind_ok, except_pure_bind]
      rw [ih (acc + consecSum d pp)]
      congr 1
      ring

/-- `MultiLineString` on well-formed parts: the per-part lengths add up. -/
theorem processGeom_multi_wf (d : ℚ × ℚ → ℚ × ℚ → ℚ)
    (partsP : List (List (ℚ × ℚ))) :
    processGeom d (.multiLineString (partsP.map (fun pp => pp.map wfPair))) =
      .ok ((partsP.map (consecSum d)).sum) := by
  simpa using foldlM_parts_wf d partsP 0

theorem processGeom_multi_error (d : ℚ × ℚ → ℚ × ℚ → ℚ)
    (parts : List (List (List JVal))) (part : List (List JVal))
    (hmem : part ∈ parts) (herr : linestring_length d part = .error ()) :
    processGeom d (.multiLineString parts) = .error () := by
  suffices h : ∀ acc : ℚ,
      List.foldlM (fun acc p => do pure (acc + (← linestring_length d p)))
        acc parts = .error () by
    exact h 0
  induction parts with
  | nil => simp at hmem
  | cons pp rest ih =>
      intro acc
      rcases List.mem_cons.mp hmem with rfl | hmem2
      · simp only [List.foldlM_cons, herr]
        rfl
      · cases hv : linestring_length d pp with
        | error e =>
            cases e
            simp only [List.foldlM_cons, hv]
            rfl
        | ok v =>
            simp only [List.foldlM_cons, hv, except_bind_ok, except_pure_bind]
            exact ih hmem2 (acc + v)

/-!
## Density Joiner (`calculate-streetlamp-density.py`, step 3)

Per feature the loop computes
`segid = str(props.get('STREETSEGID'))`,
`length = props.get('segment_length_m')`,
`lamp_count = lamp_counts.get(segid, 0)`,
`density = lamp_count / length if length and length > 0 else 0`,
and writes `props['streetlamp_score'] = density` before serializing the
feature.  A truthy non-numeric `length` would raise a `TypeError` at
`length > 0`, modelled as a fatal `Except` error.
-/

/-- `props.get(k)`: `None` when the key is absent. -/
def propGet (props : List (String × PVal)) (k : String) : PVal :=
  (props.lookup k).getD .vnone

/-- `str(props.get('STREETSEGID'))`: the feature's segment identifier
coerced to a string; a missing key yields the literal string `"None"`. -/
def featureSegid (props : List (String × PVal)) : String :=
  pyStr (propGet props "STREETSEGID")

/-- `lamp_count / length if length and length > 0 else 0`: Python
truthiness short-circuits `None`, `0` and the empty string to the `else`
branch; a truthy numeric length is compared with `0` and divides; a truthy
non-numeric length raises at `length > 0`. -/
def densityE (count : ℕ) (lengthVal : PVal) : Except Unit ℚ :=
  if pyTruthy lengthVal then
    match lengthVal with
    | .vnum q => if 0 < q then .ok ((count : ℚ) / q) else .ok 0
    | _ => .error ()
  else .ok 0

/-- The per-feature body of the streaming join loop, ending in
`props['streetlamp_score'] = density`. -/
def joinFeature (index : List (String × ℕ)) (f : Feature) :
    Except Unit Feature :=
  (densityE (getCount index (featureSegid f.props))
      (propGet f.props "segment_length_m")).map
    (fun dens => ⟨f.geom, dictSet f.props "streetlamp_score" (.vnum dens)⟩)

/-- The streaming loop: one feature at a time, in input order, the first
raised error aborting the run. -/
def joinAll (index : List (String × ℕ)) : List Feature → Except Unit (List Feature)
  | [] => .ok []
  | f :: rest => do pure ((← joinFeature index f) :: (← joinAll index rest))

/-- The score the joiner writes on the non-raising domain (numeric or
absent `segment_length_m`). -/
def scoreOf (index : List (String × ℕ)) (f : Feature) : ℚ :=
  match propGet f.props "segment_length_m" with
  | .vnum q =>
      if 0 < q then (getCount index (featureSegid f.props) : ℚ) / q else 0
  | _ => 0

/-- `segment_length_m` is numeric or absent — the shape every feature
written by the Length Calculator has. -/
def goodLen (f : Feature) : Bool :=
  match propGet f.props "segment_length_m" with
  | .vnum _ => true
  | .vnone => true
  | .vstr _ => false

/-- The joined feature on the non-raising domain. -/
def joinedFeature (index : List (String × ℕ)) (f : Feature) : Feature :=
  ⟨f.geom, dictSet f.props "streetlamp_score" (.vnum (scoreOf index f))⟩

theorem except_map_ok {ε α β : Type} (g : α → β) (x : α) :
    Except.map g (Except.ok x : Except ε α) = .ok (g x) := rfl

theorem joinFeature_ok (index : List (String × ℕ)) (f : Feature)
    (h : goodLen f = true) :
    joinFeature index f = .ok (joinedFeature index f) := by
  unfold joinFeature joinedFeature scoreOf
  cases hv : propGet f.props "segment_length_m" with
  | vnone => simp [densityE, pyTruthy, except_map_ok]
  | vstr s =>
      exfalso
      unfold goodLen at h
      rw [hv] at h
      simp at h
  | vnum q =>
      by_cases hq : q = 0
      · subst hq
        simp [densityE, pyTruthy, except_map_ok]
      · by_cases hpos : 0 < q
        · simp [densityE, pyTruthy, hq, hpos, except_map_ok]
        · simp [densityE, pyTruthy, hq, hpos, except_map_ok]

theorem joinAll_ok (index : List (String × ℕ)) (feats : List Feature)
    (h : ∀ f ∈ feats, goodLen f = true) :
    joinAll index feats = .ok (feats.map (joinedFeature index)) := by
  induction feats with
  | nil => rfl
  | cons f rest ih =>
      have hf : goodLen f = true := h f (List.mem_cons_self f rest)
      have hrest : ∀ g ∈ rest, goodLen g = true :=
        fun g hg => h g (List.mem_cons_of_mem f hg)
      simp only [joinAll, joinFeature_ok index f hf, ih hrest,
        except_bind_ok, except_pure_bind, List.map_cons]
      rfl

/-!
## Output framing of the streaming writer

The writer emits `'{"type": "FeatureCollection", "features": [\n'` once,
then for each feature a `',\n'` separator (except before the first) and
the serialized feature, then `'\n]}'` once.  Each of these `write` calls
is one token; re-parsing reads the token stream back. -/

/-- One atomic write of the streaming join loop. -/
inductive OutTok where
  | openTok
  | closeTok
  | comma
  | feat (f : Feature)
deriving DecidableEq

/-- The body of the loop: `if not first: write(',\n')` then the feature;
`first` starts `True` and is `False` ever after. -/
def writeBody : Bool → List Feature → List OutTok
  | _, [] => []
  | first, f :: rest =>
      (if first then [] else [.comma]) ++ OutTok.feat f :: writeBody false rest

/-- The whole output: opened once, body, closed once. -/
def writeTokens (feats : List Feature) : List OutTok :=
  .openTok :: (writeBody true feats ++ [.closeTok])

/-- Parsing the remainder after the first feature: either the close
bracket, or a comma followed by a feature, repeatedly. -/
def parseRest : List OutTok → Option (List Feature)
  | [.closeTok] => some []
  | .comma :: .feat f :: rest => (parseRest rest).map (f :: ·)
  | _ => none

/-- Re-parsing a token stream as a single well-formed feature collection:
one opening bracket, a comma-separated feature sequence, one closing
bracket, nothing after. -/
def parseTokens : List OutTok → Option (List Feature)
  | [.openTok, .closeTok] => some []
  | .openTok :: .feat f :: rest => (parseRest rest).map (f :: ·)
  | _ => none

theorem parseRest_writeBody (feats : List Feature) :
    parseRest (writeBody false feats ++ [.closeTok]) = some feats := by
  induction feats with
  | nil => rfl
  | cons f rest ih =>
      show parseRest (.comma :: .feat f :: (writeBody false rest ++ [.closeTok]))
        = some (f :: rest)
      simp only [parseRest, ih]
      rfl

/-- Round trip of the streaming writer: re-parsing the emitted token
stream recovers exactly the written features, in order. -/
theorem parseTokens_writeTokens (feats : List Feature) :
    parseTokens (writeTokens feats) = some feats := by
  cases feats with
  | nil => rfl
  | cons f rest =>
      show parseTokens (.openTok :: .feat f :: (writeBody false rest ++ [.closeTok]))
        = some (f :: rest)
      simp only [parseTokens, parseRest_writeBody]
      rfl

/-!
## Segment Analyzer (`analyze_zero_lamp_segments.py`)

The Analyzer re-reads the raw CSV (`if segid: lamp_segments.add(segid);
lamp_counts[segid] += 1`) and the joined GeoJSON
(`street_segments.add(str(props.get('STREETSEGID')))`), reports both set
differences, a bounded sample of zero-score segments, and the histogram
of per-segment lamp counts.
-/

/-- Step of the raw fixture scan: `if segid: lamp_segments.add(segid)`. -/
def lampSegStep (s : Finset String) (r : Option String) : Finset String :=
  match r with
  | some k => if k = "" then s else insert k s
  | none => s

/-- The set of segment identifiers carrying at least one lamp. -/
def lampSegments (rows : List (Option String)) : Finset String :=
  rows.foldl lampSegStep ∅

/-- The set of identifiers present in the joined geometry collection. -/
def streetSegments (feats : List Feature) : Finset String :=
  feats.foldl (fun s f => insert (featureSegid f.props) s) ∅

/-- `street_segments - lamp_segments`: identifiers with geometry but no
lamp row. -/
def geometryOnly (rows : List (Option String)) (feats : List Feature) :
    Finset String :=
  streetSegments feats \ lampSegments rows

/-- `lamp_segments - street_segments`: identifiers with lamp rows but no
geometry. -/
def lampOnly (rows : List (Option String)) (feats : List Feature) :
    Finset String :=
  lampSegments rows \ streetSegments feats

theorem mem_foldl_lampSegStep (rows : List (Option String)) :
    ∀ (s : Finset String) (k : String),
    k ∈ rows.foldl lampSegStep s ↔ k ∈ s ∨ (some k ∈ rows ∧ k ≠ "") := by
  induction rows with
  | nil => intro s k; simp
  | cons r rest ih =>
      intro s k
      cases r with
      | none =>
          simp only [List.foldl_cons, lampSegStep, ih, List.mem_cons]
          constructor
          · rintro (h | ⟨h1, h2⟩)
            · exact Or.inl h
            · exact Or.inr ⟨Or.inr h1, h2⟩
          · rintro (h | ⟨h1 | h1, h2⟩)
            · exact Or.inl h
            · exact absurd h1 (by simp)
            · exact Or.inr ⟨h1, h2⟩
      | some w =>
          by_cases hw : w = ""
          · subst hw
            simp only [List.foldl_cons, lampSegStep, if_true, ih,
              List.mem_cons]
            constructor
            · rintro (h | ⟨h1, h2⟩)
              · exact Or.inl h
              · exact Or.inr ⟨Or.inr h1, h2⟩
            · rintro (h | ⟨h1 | h1, h2⟩)
              · exact Or.inl h
              · exact absurd (Option.some.inj h1) h2
              · exact Or.inr ⟨h1, h2⟩
          · simp only [List.foldl_cons, lampSegStep, hw, if_false, ih,
              Finset.mem_insert, List.mem_cons]
            constructor
            · rintro ((h | h) | ⟨h1, h2⟩)
              · exact Or.inr ⟨Or.inl (by rw [h]), by rw [h]; exact hw⟩
              · exact Or.inl h
              · exact Or.inr ⟨Or.inr h1, h2⟩
            · rintro (h | ⟨h1 | h1, h2⟩)
              · exact Or.inl (Or.inr h)
              · exact Or.inl (Or.inl (Option.some.inj h1))
              · exact Or.inr ⟨h1, h2⟩

/-- A key is reported in `lamp_segments` iff some fixture row carries it
(and it is non-empty). -/
theorem mem_lampSegments (rows : List (Option String)) (k : String) :
    k ∈ lampSegments rows ↔ some k ∈ rows ∧ k ≠ "" := by
  rw [lampSegments, mem_foldl_lampSegStep]
  simp

theorem mem_foldl_streetStep (feats : List Feature) :
    ∀ (s : Finset String) (k : String),
    k ∈ feats.foldl (fun s f => insert (featureSegid f.props) s) s ↔
      k ∈ s ∨ ∃ f ∈ feats, featureSegid f.props = k := by
  induction feats with
  | nil => intro s k; simp
  | cons f rest ih =>
      intro s k
      simp only [List.foldl_cons, ih, Finset.mem_insert, List.mem_cons]
      constructor
      · rintro ((h | h) | ⟨g, hg, hk⟩)
        · exact Or.inr ⟨f, Or.inl rfl, h.symm⟩
        · exact Or.inl h
        · exact Or.inr ⟨g, Or.inr hg, hk⟩
      · rintro (h | ⟨g, hg | hg, hk⟩)
        · exact Or.inl (Or.inr h)
        · exact Or.inl (Or.inl (by rw [hg] at hk; exact hk.symm))
        · exact Or.inr ⟨g, hg, hk⟩

/-- A key is in `street_segments` iff some joined feature's coerced
identifier equals it. -/
theorem mem_streetSegments (feats : List Feature) (k : String) :
    k ∈ streetSegments feats ↔ ∃ f ∈ feats, featureSegid f.props = k := by
  rw [streetSegments, mem_foldl_streetStep]
  simp

/-!
### Zero-lamp sample listing
-/

/-- `props.get('streetlamp_score', 0) == 0`: a missing key defaults to
`0`; Python `==` equates `0` only with a numeric zero, never with `None`
or a string. -/
def isZeroScore (props : List (String × PVal)) : Bool :=
  match props.lookup "streetlamp_score" with
  | none => true
  | some (.vnum q) => q = 0
  | some _ => false

/-- `props.get('FULLNAME', 'Unknown')`: the street name with the default
sentinel for a missing key. -/
def zeroName (props : List (String × PVal)) : PVal :=
  (props.lookup "FULLNAME").getD (.vstr "Unknown")

/-- The numeric value of `props.get('segment_length_m', 0)` (the joined
collection always stores a number here; the default covers absence). -/
def zeroLen (props : List (String × PVal)) : ℚ :=
  match props.lookup "segment_length_m" with
  | some (.vnum q) => q
  | _ => 0

/-- The `zero_lamp_segments` list: one `(segid, street_name, length)`
entry per zero-score feature, in input order. -/
def zeroLampSegments (feats : List Feature) : List (String × PVal × ℚ) :=
  feats.filterMap (fun f =>
    if isZeroScore f.props then
      some (featureSegid f.props, zeroName f.props, zeroLen f.props)
    else none)

/-- Descending-by-length comparator used by
`sorted(..., key=lambda x: x[2], reverse=True)`. -/
def byLenDesc (a b : String × PVal × ℚ) : Bool :=
  b.2.2 ≤ a.2.2

/-- `sorted(zero_lamp_segments[:10], key=lambda x: x[2], reverse=True)`:
the first ten collected entries, stably sorted by descending length. -/
def sampleListing (feats : List Feature) : List (String × PVal × ℚ) :=
  ((zeroLampSegments feats).take 10).mergeSort byLenDesc

/-- Python's round-half-even of `x` to an integer, as used by `"%.1f"`
formatting on one extra decimal digit. -/
def pyRoundHalfEven (x : ℚ) : ℤ :=
  let f := Int.floor x
  let r := x - f
  if r < 1 / 2 then f
  else if 1 / 2 < r then f + 1
  else if f % 2 = 0 then f else f + 1

/-- `f"{length:.1f}"`: the length formatted to exactly one decimal
place. -/
def fmt1 (q : ℚ) : String :=
  let n := pyRoundHalfEven (q * 10)
  (if n < 0 then "-" else "") ++
    toString (n.natAbs / 10) ++ "." ++ toString (n.natAbs % 10)

/-- One printed sample line:
`f"{segid}, {name}, {length:.1f}m"`. -/
def renderEntry (e : String × PVal × ℚ) : String :=
  e.1 ++ ", " ++ pyStr e.2.1 ++ ", " ++ fmt1 e.2.2 ++ "m"

/-- The printed sample block. -/
def samplePrinted (feats : List Feature) : List String :=
  (sampleListing feats).map renderEntry

/-!
### Lamp-count distribution
-/

/-- `Counter(lamp_counts.values())`: the histogram of per-segment lamp
counts. -/
def histCounter (vals : List ℕ) : List (ℕ × ℕ) :=
  vals.foldl (fun m v => dictSet m v (getCount m v + 1)) []

/-- `lamp_counts.values()` of the Analyzer's own aggregation pass. -/
def lampValues (rows : List (Option String)) : List ℕ :=
  (lampCounts rows).map Prod.snd

/-- The ascending comparator of Python `sorted` on integers. -/
def natLeB (a b : ℕ) : Bool := a ≤ b

/-- `sorted(counts.keys())`: the distinct observed lamp-count values in
ascending order. -/
def histKeysSorted (rows : List (Option String)) : List ℕ :=
  (dictKeys (histCounter (lampValues rows))).mergeSort natLeB

/-- One printed distribution line:
`f"{count} lamp(s): {counts[count]} segments"`. -/
def histLine (rows : List (Option String)) (v : ℕ) : String :=
  toString v ++ " lamp(s): " ++
    toString (getCount (histCounter (lampValues rows)) v) ++ " segments"

/-- The printed distribution: lines for `sorted(keys)[:5]`, then the
ellipsis line `"..."`, then lines for `sorted(keys)[-5:]`. -/
def histPrinted (rows : List (Option String)) : List String :=
  (histKeysSorted rows).take 5 |>.map (histLine rows) |>.append
    (("..." :: (((histKeysSorted rows).drop ((histKeysSorted rows).length - 5)).map (histLine rows))))

theorem nodup_dictKeys_foldl_count (vals : List ℕ) :
    ∀ m : List (ℕ × ℕ), (dictKeys m).Nodup →
    (dictKeys (vals.foldl (fun m v => dictSet m v (getCount m v + 1)) m)).Nodup := by
  induction vals with
  | nil => intro m h; exact h
  | cons v rest ih =>
      intro m h
      exact ih _ (nodup_dictKeys_dictSet m v _ h)

theorem nodup_dictKeys_histCounter (vals : List ℕ) :
    (dictKeys (histCounter vals)).Nodup := by
  refine nodup_dictKeys_foldl_count vals [] ?_
  simp [dictKeys]

theorem mem_dictKeys_foldl_count (vals : List ℕ) :
    ∀ (m : List (ℕ × ℕ)) (k : ℕ),
    k ∈ dictKeys (vals.foldl (fun m v => dictSet m v (getCount m v + 1)) m) ↔
      k ∈ dictKeys m ∨ k ∈ vals := by
  induction vals with
  | nil => intro m k; simp
  | cons v rest ih =>
      intro m k
      simp only [List.foldl_cons, ih, mem_dictKeys_dictSet, List.mem_cons]
      tauto

/-- The histogram's key set is exactly the set of observed per-segment
lamp-count values. -/
theorem mem_dictKeys_histCounter (vals : List ℕ) (k : ℕ) :
    k ∈ dictKeys (histCounter vals) ↔ k ∈ vals := by
  rw [histCounter, mem_dictKeys_foldl_count]
  simp [dictKeys]

/-!
## Auxiliary order and lookup lemmas
-/

instance {ε α : Type} [DecidableEq ε] [DecidableEq α] :
    DecidableEq (Except ε α) := fun a b =>
  match a, b with
  | .ok x, .ok y =>
      if h : x = y then .isTrue (by rw [h]) else .isFalse (by simp [h])
  | .error x, .error y =>
      if h : x = y then .isTrue (by rw [h]) else .isFalse (by simp [h])
  | .ok _, .error _ => .isFalse (by simp)
  | .error _, .ok _ => .isFalse (by simp)

theorem lookup_eq_none_of_not_mem {κ α : Type} [BEq κ] [LawfulBEq κ]
    (m : List (κ × α)) (k : κ) (h : k ∉ dictKeys m) : m.lookup k = none := by
  induction m with
  | nil => rfl
  | cons hd tl ih =>
      obtain ⟨k₂, v₂⟩ := hd
      simp only [dictKeys, List.map_cons, List.mem_cons] at h
      push_neg at h
      simp [List.lookup, beq_eq_false_iff_ne.mpr h.1,
        ih (by simpa [dictKeys] using h.2)]

theorem dictKeys_lampCounts_ne_empty (rows : List (Option String)) :
    ∀ k ∈ dictKeys (lampCounts rows), k ≠ "" := by
  suffices h : ∀ m : List (String × ℕ), (∀ k ∈ dictKeys m, k ≠ "") →
      ∀ k ∈ dictKeys (rows.foldl lampStep m), k ≠ "" by
    exact h [] (by simp [dictKeys])
  induction rows with
  | nil => intro m hm; exact hm
  | cons r rest ih =>
      intro m hm
      refine ih (lampStep m r) ?_
      intro k hk
      cases r with
      | none => exact hm k hk
      | some s =>
          by_cases hs : s = ""
          · subst hs
            exact hm k (by simpa [lampStep] using hk)
          · simp only [lampStep, hs, if_false] at hk
            rw [mem_dictKeys_dictSet] at hk
            rcases hk with hk | rfl
            · exact hm k hk
            · exact hs

theorem byLenDesc_trans : ∀ a b c : String × PVal × ℚ,
    byLenDesc a b = true → byLenDesc b c = true → byLenDesc a c = true := by
  intro a b c hab hbc
  simp only [byLenDesc, decide_eq_true_eq] at hab hbc ⊢
  exact le_trans hbc hab

theorem byLenDesc_total : ∀ a b : String × PVal × ℚ,
    (byLenDesc a b || byLenDesc b a) = true := by
  intro a b
  simp only [byLenDesc, Bool.or_eq_true, decide_eq_true_eq]
  exact le_total _ _

theorem sampleListing_sorted (feats : List Feature) :
    (sampleListing feats).Pairwise (fun a b => b.2.2 ≤ a.2.2) := by
  have h := List.sorted_mergeSort byLenDesc_trans byLenDesc_total
    ((zeroLampSegments feats).take 10)
  exact h.imp (fun hab => by simpa [byLenDesc, decide_eq_true_eq] using hab)

theorem natLeB_trans : ∀ a b c : ℕ,
    natLeB a b = true → natLeB b c = true → natLeB a c = true := by
  intro a b c hab hbc
  simp only [natLeB, decide_eq_true_eq] at hab hbc ⊢
  omega

theorem natLeB_total : ∀ a b : ℕ, (natLeB a b || natLeB b a) = true := by
  intro a b
  simp only [natLeB, Bool.or_eq_true, decide_eq_true_eq]
  omega

theorem histKeysSorted_nodup (rows : List (Option String)) :
    (histKeysSorted rows).Nodup :=
  (List.mergeSort_perm _ natLeB).nodup_iff.mpr
    (nodup_dictKeys_histCounter (lampValues rows))

theorem histKeysSorted_pairwise_lt (rows : List (Option String)) :
    (histKeysSorted rows).Pairwise (· < ·) := by
  have hle : (histKeysSorted rows).Pairwise (· ≤ ·) := by
    have h := List.sorted_mergeSort natLeB_trans natLeB_total
      (dictKeys (histCounter (lampValues rows)))
    exact h.imp (fun hab => by simpa [natLeB, decide_eq_true_eq] using hab)
  have hne : (histKeysSorted rows).Pairwise (· ≠ ·) :=
    histKeysSorted_nodup rows
  exact (hle.and hne).imp (fun h => lt_of_le_of_ne h.1 h.2)

theorem mem_histKeysSorted (rows : List (Option String)) (v : ℕ) :
    v ∈ histKeysSorted rows ↔ v ∈ lampValues rows :=
  ((List.mergeSort_perm _ natLeB).mem_iff).trans
    (mem_dictKeys_histCounter (lampValues rows) v)

theorem scoreOf_nonneg (index : List (String × ℕ)) (f : Feature) :
    0 ≤ scoreOf index f := by
  unfold scoreOf
  cases propGet f.props "segment_length_m" with
  | vnone => simp
  | vstr s => simp
  | vnum q =>
      by_cases hpos : 0 < q
      · simp only [hpos, if_true]
        exact div_nonneg (Nat.cast_nonneg _) hpos.le
      · simp [hpos]

theorem densityE_vnum (c : ℕ) (q : ℚ) :
    densityE c (.vnum q) = .ok (if 0 < q then (c : ℚ) / q else 0) := by
  by_cases hq : q = 0
  · subst hq
    simp [densityE, pyTruthy]
  · by_cases hpos : 0 < q
    · simp [densityE, pyTruthy, hq, hpos]
    · simp [densityE, pyTruthy, hq, hpos]

/-!
## The claims
-/

/-- C1.  For every feature processed by the Density Joiner, the written
`streetlamp_score` equals `lamp_count / segment_length_m` when
`segment_length_m > 0`, and is exactly `0` when `segment_length_m` is `0`,
non-positive, or absent; on this domain the computation never raises and
always yields a well-defined, non-negative rational (no NaN or infinity
exists in `ℚ`, and the guard forbids division by zero). -/
theorem claim_c1 (index : List (String × ℕ)) (c : ℕ) (q : ℚ) (f : Feature) :
    densityE c (.vnum q) = .ok (if 0 < q then (c : ℚ) / q else 0)
    ∧ (0 < q → densityE c (.vnum q) = .ok ((c : ℚ) / q))
    ∧ (q ≤ 0 → densityE c (.vnum q) = .ok 0)
    ∧ densityE c .vnone = .ok 0
    ∧ (∀ r : ℚ, densityE c (.vnum q) = .ok r → 0 ≤ r)
    ∧ (goodLen f = true → ∃ f₂, joinFeature index f = .ok f₂ ∧
        f₂.props.lookup "streetlamp_score" = some (.vnum (scoreOf index f)) ∧
        0 ≤ scoreOf index f) := by
  refine ⟨densityE_vnum c q, ?_, ?_, rfl, ?_, ?_⟩
  · intro hpos
    rw [densityE_vnum, if_pos hpos]
  · intro hle
    rw [densityE_vnum, if_neg (not_lt.mpr hle)]
  · intro r hr
    rw [densityE_vnum] at hr
    have := Except.ok.inj hr
    subst this
    by_cases hpos : 0 < q
    · simp only [hpos, if_true]
      exact div_nonneg (Nat.cast_nonneg _) hpos.le
    · simp [hpos]
  · intro hg
    refine ⟨joinedFeature index f, joinFeature_ok index f hg, ?_, scoreOf_nonneg index f⟩
    show (dictSet f.props "streetlamp_score" (.vnum (scoreOf index f))).lookup
        "streetlamp_score" = some (.vnum (scoreOf index f))
    rw [lookup_dictSet]
    simp

/-- C1 witness: a concrete feature with `segment_length_m = 2` joined
against an index giving it `3` lamps gets `streetlamp_score = 3/2`. -/
theorem claim_c1_witness :
    densityE 3 (.vnum 2) = .ok (3 / 2)
    ∧ ∃ f₂, joinFeature [("A", 3)]
        ⟨Geom.other "", [("STREETSEGID", .vstr "A"), ("segment_length_m", .vnum 2)]⟩ =
          .ok f₂ ∧
        f₂.props.lookup "streetlamp_score" = some (.vnum (3 / 2)) := by
  have h := claim_c1 [("A", 3)] 3 2
    ⟨Geom.other "", [("STREETSEGID", .vstr "A"), ("segment_length_m", .vnum 2)]⟩
  constructor
  · have h1 := h.2.1 (by norm_num)
    simpa using h1
  · obtain ⟨f₂, hf, hp, _⟩ := h.2.2.2.2.2 (by decide)
    refine ⟨f₂, hf, ?_⟩
    rw [hp]
    have hs : scoreOf [("A", 3)]
        ⟨Geom.other "", [("STREETSEGID", .vstr "A"), ("segment_length_m", .vnum 2)]⟩ =
          3 / 2 := by
      show (if (0 : ℚ) < 2 then
          ((getCount [("A", 3)] (featureSegid
            [("STREETSEGID", PVal.vstr "A"), ("segment_length_m", PVal.vnum 2)]) : ℚ) / 2)
        else 0) = 3 / 2
      rw [if_pos (by norm_num)]
      have hseg : featureSegid
          [("STREETSEGID", PVal.vstr "A"), ("segment_length_m", PVal.vnum 2)] = "A" := rfl
      rw [hseg]
      norm_num [getCount, List.lookup]
    rw [hs]

/-- C2.  For a `LineString` of N well-formed vertices the Length
Calculator computes the sum of the N−1 consecutive geodesic distances
(0 when N ≤ 1); for a `MultiLineString` it sums the per-part lengths by
the same rule; with a non-negative distance function the result is
non-negative; and the computed value is written as the feature's
`segment_length_m` property. -/
theorem claim_c2 (d : ℚ × ℚ → ℚ × ℚ → ℚ) (pts : List (ℚ × ℚ))
    (partsP : List (List (ℚ × ℚ))) (f : Feature) :
    processGeom d (.lineString (pts.map wfPair)) =
      .ok (∑ i ∈ Finset.range (pts.length - 1),
        gdist d (pts.getD i (0, 0)) (pts.getD (i + 1) (0, 0)))
    ∧ (pts.length ≤ 1 → processGeom d (.lineString (pts.map wfPair)) = .ok 0)
    ∧ processGeom d (.multiLineString (partsP.map (fun pp => pp.map wfPair))) =
        .ok ((partsP.map (fun pp => ∑ i ∈ Finset.range (pp.length - 1),
          gdist d (pp.getD i (0, 0)) (pp.getD (i + 1) (0, 0)))).sum)
    ∧ ((∀ p q₂ : ℚ × ℚ, 0 ≤ d p q₂) →
        0 ≤ consecSum d pts ∧ 0 ≤ (partsP.map (consecSum d)).sum)
    ∧ (f.geom = .lineString (pts.map wfPair) →
        ∃ f₂, lengthFeature d f = .ok f₂ ∧
          f₂.props.lookup "segment_length_m" = some (.vnum (consecSum d pts))) := by
  have hmap : (partsP.map (consecSum d)) =
      partsP.map (fun pp => ∑ i ∈ Finset.range (pp.length - 1),
        gdist d (pp.getD i (0, 0)) (pp.getD (i + 1) (0, 0))) := by
    refine List.map_congr_left ?_
    intro pp _
    exact consecSum_eq_sum_range d pp
  refine ⟨?_, ?_, ?_, ?_, ?_⟩
  · rw [processGeom_lineString, linestring_length_wf, consecSum_eq_sum_range]
  · intro hlen
    rw [processGeom_lineString, linestring_length_short]
    simpa using hlen
  · rw [processGeom_multi_wf, hmap]
  · intro hd
    constructor
    · exact consecSum_nonneg d hd pts
    · refine List.sum_nonneg ?_
      intro x hx
      simp only [List.mem_map] at hx
      obtain ⟨pp, _, rfl⟩ := hx
      exact consecSum_nonneg d hd pp
  · intro hg
    refine ⟨⟨f.geom, dictSet f.props "segment_length_m" (.vnum (consecSum d pts))⟩, ?_, ?_⟩
    · unfold lengthFeature
      rw [hg, processGeom_lineString, linestring_length_wf]
      rfl
    · show (dictSet f.props "segment_length_m" (.vnum (consecSum d pts))).lookup
          "segment_length_m" = some (.vnum (consecSum d pts))
      rw [lookup_dictSet]
      simp

/-- C2 witness: with the taxicab distance, the two-vertex line
`[[0,0],[0,1]]` has length `1`, a one-vertex line has length `0`, and a
two-part multiline doubles it; all values are non-negative. -/
theorem claim_c2_witness :
    (∀ p q₂ : ℚ × ℚ, 0 ≤ (fun a b : ℚ × ℚ => |a.1 - b.1| + |a.2 - b.2|) p q₂)
    ∧ processGeom (fun a b : ℚ × ℚ => |a.1 - b.1| + |a.2 - b.2|)
        (.lineString [[.jnum 0, .jnum 0], [.jnum 0, .jnum 1]]) = .ok 1
    ∧ processGeom (fun a b : ℚ × ℚ => |a.1 - b.1| + |a.2 - b.2|)
        (.lineString [[.jnum 5, .jnum 5]]) = .ok 0
    ∧ 0 ≤ consecSum (fun a b : ℚ × ℚ => |a.1 - b.1| + |a.2 - b.2|)
        [(0, 0), (0, 1)] := by
  have hd : ∀ p q₂ : ℚ × ℚ,
      0 ≤ (fun a b : ℚ × ℚ => |a.1 - b.1| + |a.2 - b.2|) p q₂ := by
    intro p q₂
    have h1 : 0 ≤ |p.1 - q₂.1| := abs_nonneg _
    have h2 : 0 ≤ |p.2 - q₂.2| := abs_nonneg _
    simpa using add_nonneg h1 h2
  have h := claim_c2 (fun a b : ℚ × ℚ => |a.1 - b.1| + |a.2 - b.2|)
    [(0, 0), (0, 1)] [] default
  refine ⟨hd, ?_, ?_, ?_⟩
  · have h1 := h.1
    have hm : ([((0 : ℚ), (0 : ℚ)), (0, 1)].map wfPair) =
        [[.jnum 0, .jnum 0], [.jnum 0, .jnum 1]] := rfl
    rw [hm] at h1
    rw [h1]
    congr 1
    rw [show ([((0 : ℚ), (0 : ℚ)), (0, 1)].length - 1) = 1 from rfl,
      Finset.sum_range_one]
    show gdist (fun a b : ℚ × ℚ => |a.1 - b.1| + |a.2 - b.2|) (0, 0) (0, 1) = 1
    unfold gdist
    norm_num
  · have h2 := (claim_c2 (fun a b : ℚ × ℚ => |a.1 - b.1| + |a.2 - b.2|)
      [((5 : ℚ), (5 : ℚ))] [] default).2.1 (by norm_num)
    have hm : ([((5 : ℚ), (5 : ℚ))].map wfPair) = [[.jnum 5, .jnum 5]] := rfl
    rw [hm] at h2
    exact h2
  · exact (h.2.2.2.1 hd).1

/-- C3.  The Lamp Aggregator's counts total exactly the number of fixture
rows with a present, non-empty identifier; rows with a missing or empty
identifier are skipped without error (prepending one changes nothing);
and re-aggregating the same rows in any order yields the identical
mapping (the same count at every key). -/
theorem claim_c3 (rows rows₂ : List (Option String)) (hperm : rows.Perm rows₂) :
    sumValues (lampCounts rows) = rows.countP validRow
    ∧ lampCounts ((none : Option String) :: rows) = lampCounts rows
    ∧ lampCounts (some "" :: rows) = lampCounts rows
    ∧ (∀ k, getCount (lampCounts rows) k = getCount (lampCounts rows₂) k) := by
  refine ⟨sumValues_lampCounts rows, rfl, rfl, ?_⟩
  intro k
  rw [getCount_lampCounts, getCount_lampCounts]
  by_cases hk : k = ""
  · simp [hk]
  · simp only [hk, if_false]
    exact hperm.countP_eq _

/-- C3 witness: the spec's own example — rows `A1, A1, B2, ""` total 3
counted rows, and a permuted run gives the same count at `"A1"`. -/
theorem claim_c3_witness :
    [some "A1", some "A1", some "B2", some ""].Perm
      [some "B2", some "A1", some "", some "A1"]
    ∧ sumValues (lampCounts [some "A1", some "A1", some "B2", some ""]) = 3
    ∧ getCount (lampCounts [some "A1", some "A1", some "B2", some ""]) "A1" =
        getCount (lampCounts [some "B2", some "A1", some "", some "A1"]) "A1" := by
  have hperm : [some "A1", some "A1", some "B2", some ""].Perm
      [some "B2", some "A1", some "", some "A1"] := by decide
  have h := claim_c3 _ _ hperm
  exact ⟨hperm, h.1.trans (by decide), h.2.2.2 "A1"⟩

/-- C4 counterexample: the claim says any geometry type other than
`LineString`/`MultiLineString` aborts the run, and that any wrong-arity
coordinate aborts; but the dispatch has no `else` branch, so a `Point`
geometry is written with `length_m = 0`, and a wrong-arity coordinate in a
single-vertex line is never inspected (the consecutive-pair zip is empty),
also yielding `0` instead of an error. -/
theorem claim_c4_counterexample :
    processGeom (fun _ _ => (0 : ℚ)) (Geom.other "Point") = .ok 0
    ∧ processGeom (fun _ _ => (0 : ℚ))
        (.lineString [[.jnum 1, .jnum 2, .jnum 3]]) = .ok 0 :=
  ⟨rfl, rfl⟩

/-- C4 (amended).  A coordinate of wrong arity or with a non-numeric
ordinate aborts the run whenever it belongs to a line (or part) with at
least two vertices, so that it enters a consecutive pair; but a geometry
type other than `LineString` and `MultiLineString` does not abort — the
feature is written with `length_m = 0`. -/
theorem claim_c4_amended (d : ℚ × ℚ → ℚ × ℚ → ℚ)
    (coords : List (List JVal)) (parts : List (List (List JVal)))
    (c : List JVal) (t : String) :
    processGeom d (.other t) = .ok 0
    ∧ (2 ≤ coords.length → c ∈ coords → parsePair c = .error () →
        processGeom d (.lineString coords) = .error ())
    ∧ (∀ part ∈ parts, 2 ≤ part.length → c ∈ part → parsePair c = .error () →
        processGeom d (.multiLineString parts) = .error ())
    ∧ (∀ q : ℚ, parsePair [.jnum q, .jother] = .error ())
    ∧ parsePair [.jnum 1, .jnum 2, .jnum 3] = .error () := by
  refine ⟨rfl, ?_, ?_, fun q => rfl, rfl⟩
  · intro hlen hc hbad
    rw [processGeom_lineString]
    exact linestring_length_error d coords hlen c hc hbad
  · intro part hp hlen hc hbad
    exact processGeom_multi_error d parts part hp
      (linestring_length_error d part hlen c hc hbad)

/-- C4 witness: a malformed first coordinate in a two-vertex line aborts,
both bare and inside a multiline, while a `Point` geometry sails through
with length `0`. -/
theorem claim_c4_witness :
    processGeom (fun _ _ => (0 : ℚ))
      (.lineString [[.jother], [.jnum 0, .jnum 0]]) = .error ()
    ∧ processGeom (fun _ _ => (0 : ℚ))
        (.multiLineString [[[.jother], [.jnum 0, .jnum 0]]]) = .error ()
    ∧ processGeom (fun _ _ => (0 : ℚ)) (.other "Point") = .ok 0 := by
  have h := claim_c4_amended (fun _ _ => (0 : ℚ))
    [[.jother], [.jnum 0, .jnum 0]] [[[.jother], [.jnum 0, .jnum 0]]]
    [.jother] "Point"
  refine ⟨h.2.1 (by decide) (by decide) rfl, ?_, h.1⟩
  exact h.2.2.1 [[.jother], [.jnum 0, .jnum 0]] (by decide) (by decide)
    (by decide) rfl

/-- C5.  On a well-formed length-enriched input the streaming join
succeeds and, re-parsed, its token stream is a single well-formed feature
collection (opened and closed exactly once, comma before every feature
except the first) holding exactly as many features as the input, in the
same order, each keeping every original property unchanged plus the added
`streetlamp_score`. -/
theorem claim_c5 (index : List (String × ℕ)) (feats : List Feature)
    (hwf : ∀ f ∈ feats, goodLen f = true) :
    ∃ out, joinAll index feats = .ok out
      ∧ out.length = feats.length
      ∧ parseTokens (writeTokens out) = some out
      ∧ ∀ (i : ℕ) (hi : i < feats.length) (ho : i < out.length),
          (out.get ⟨i, ho⟩).geom = (feats.get ⟨i, hi⟩).geom
          ∧ (∀ k, k ≠ "streetlamp_score" →
              (out.get ⟨i, ho⟩).props.lookup k =
                (feats.get ⟨i, hi⟩).props.lookup k)
          ∧ (out.get ⟨i, ho⟩).props.lookup "streetlamp_score" =
              some (.vnum (scoreOf index (feats.get ⟨i, hi⟩))) := by
  refine ⟨feats.map (joinedFeature index), joinAll_ok index feats hwf,
    by simp, parseTokens_writeTokens _, ?_⟩
  intro i hi ho
  have hget : (feats.map (joinedFeature index)).get ⟨i, ho⟩ =
      joinedFeature index (feats.get ⟨i, hi⟩) := by
    rw [List.get_eq_getElem, List.get_eq_getElem, List.getElem_map]
  rw [hget]
  refine ⟨rfl, ?_, ?_⟩
  · intro k hk
    show (dictSet (feats.get ⟨i, hi⟩).props "streetlamp_score"
        (.vnum (scoreOf index (feats.get ⟨i, hi⟩)))).lookup k =
      (feats.get ⟨i, hi⟩).props.lookup k
    rw [lookup_dictSet]
    simp [beq_eq_false_iff_ne.mpr hk]
  · show (dictSet (feats.get ⟨i, hi⟩).props "streetlamp_score"
        (.vnum (scoreOf index (feats.get ⟨i, hi⟩)))).lookup
          "streetlamp_score" =
      some (.vnum (scoreOf index (feats.get ⟨i, hi⟩)))
    rw [lookup_dictSet]
    simp

/-- C5 witness: two concrete well-formed features round-trip through the
join and the writer. -/
theorem claim_c5_witness :
    (∀ f ∈ ([⟨Geom.other "", [("STREETSEGID", PVal.vstr "A"),
          ("segment_length_m", PVal.vnum 4)]⟩,
        ⟨Geom.other "", []⟩] : List Feature), goodLen f = true)
    ∧ ∃ out, joinAll [("A", 2)]
        [⟨Geom.other "", [("STREETSEGID", PVal.vstr "A"),
            ("segment_length_m", PVal.vnum 4)]⟩,
          ⟨Geom.other "", []⟩] = .ok out
        ∧ out.length = 2
        ∧ parseTokens (writeTokens out) = some out := by
  have hwf : ∀ f ∈ ([⟨Geom.other "", [("STREETSEGID", PVal.vstr "A"),
        ("segment_length_m", PVal.vnum 4)]⟩,
      ⟨Geom.other "", []⟩] : List Feature), goodLen f = true := by decide
  obtain ⟨out, h1, h2, h3, _⟩ := claim_c5 [("A", 2)] _ hwf
  exact ⟨hwf, out, h1, h2.trans rfl, h3⟩

/-- C6.  The joiner coerces the feature's identifier to a string
(`str(props.get('STREETSEGID'))`) before the lookup; an absent key gives
count `0`; a present key gives exactly the number of fixture rows whose
identifier string-matches the coerced identifier; and unconditionally the
count is the number of matching rows except at the never-stored empty
key. -/
theorem claim_c6 (rows : List (Option String)) (props : List (String × PVal)) :
    featureSegid props = pyStr (propGet props "STREETSEGID")
    ∧ (featureSegid props ∉ dictKeys (lampCounts rows) →
        getCount (lampCounts rows) (featureSegid props) = 0)
    ∧ (featureSegid props ∈ dictKeys (lampCounts rows) →
        getCount (lampCounts rows) (featureSegid props) =
          rows.countP (fun r => r == some (featureSegid props)))
    ∧ getCount (lampCounts rows) (featureSegid props) =
        (if featureSegid props = "" then 0
         else rows.countP (fun r => r == some (featureSegid props))) := by
  refine ⟨rfl, ?_, ?_, getCount_lampCounts rows _⟩
  · intro hnot
    unfold getCount
    rw [lookup_eq_none_of_not_mem _ _ hnot]
    rfl
  · intro hmem
    have hne := dictKeys_lampCounts_ne_empty rows _ hmem
    rw [getCount_lampCounts, if_neg hne]

/-- C6 witness: a numeric identifier `7` is coerced to the string `"7"`
and matches two CSV rows; the unmatched string `"8"` gives count `0`. -/
theorem claim_c6_witness :
    featureSegid [("STREETSEGID", PVal.vnum 7)] = "7"
    ∧ "7" ∈ dictKeys (lampCounts [some "7", some "7", some "9"])
    ∧ getCount (lampCounts [some "7", some "7", some "9"]) "7" = 2
    ∧ "8" ∉ dictKeys (lampCounts [some "7", some "7", some "9"])
    ∧ getCount (lampCounts [some "7", some "7", some "9"]) "8" = 0 := by
  have h7 := claim_c6 [some "7", some "7", some "9"]
    [("STREETSEGID", PVal.vnum 7)]
  have h8 := claim_c6 [some "7", some "7", some "9"]
    [("STREETSEGID", PVal.vstr "8")]
  have hseg7 : featureSegid [("STREETSEGID", PVal.vnum 7)] = "7" := by decide
  have hseg8 : featureSegid [("STREETSEGID", PVal.vstr "8")] = "8" := rfl
  have hmem : "7" ∈ dictKeys (lampCounts [some "7", some "7", some "9"]) := by
    decide
  have hnot : "8" ∉ dictKeys (lampCounts [some "7", some "7", some "9"]) := by
    decide
  refine ⟨hseg7, hmem, ?_, hnot, ?_⟩
  · have hc := h7.2.2.1 (by rw [hseg7]; exact hmem)
    rw [hseg7] at hc
    exact hc.trans (by decide)
  · have hc := h8.2.1 (by rw [hseg8]; exact hnot)
    rw [hseg8] at hc
    exact hc

/-- C7.  The Analyzer's two reported differences are exactly the
set-differences of the geometry identifier set and the at-least-one-lamp
identifier set, in both directions; on the spec's example (geometry
`S1,S2,S3`, lamps `S1,S4`) they are `{S2, S3}` and `{S4}`; the
computation is total, so a join miss is reported, never an error. -/
theorem claim_c7 (rows : List (Option String)) (feats : List Feature)
    (k : String) :
    (k ∈ geometryOnly rows feats ↔
      (∃ f ∈ feats, featureSegid f.props = k) ∧ ¬(some k ∈ rows ∧ k ≠ ""))
    ∧ (k ∈ lampOnly rows feats ↔
      (some k ∈ rows ∧ k ≠ "") ∧ ¬∃ f ∈ feats, featureSegid f.props = k)
    ∧ geometryOnly [some "S1", some "S4"]
        ([⟨Geom.other "", [("STREETSEGID", PVal.vstr "S1")]⟩,
          ⟨Geom.other "", [("STREETSEGID", PVal.vstr "S2")]⟩,
          ⟨Geom.other "", [("STREETSEGID", PVal.vstr "S3")]⟩] : List Feature) =
        {"S2", "S3"}
    ∧ lampOnly [some "S1", some "S4"]
        ([⟨Geom.other "", [("STREETSEGID", PVal.vstr "S1")]⟩,
          ⟨Geom.other "", [("STREETSEGID", PVal.vstr "S2")]⟩,
          ⟨Geom.other "", [("STREETSEGID", PVal.vstr "S3")]⟩] : List Feature) =
        {"S4"} := by
  refine ⟨?_, ?_, by decide, by decide⟩
  · rw [geometryOnly, Finset.mem_sdiff, mem_streetSegments, mem_lampSegments]
  · rw [lampOnly, Finset.mem_sdiff, mem_lampSegments, mem_streetSegments]

/-- C10.  A feature without a `STREETSEGID` key does not make the joiner
fail: the lookup key becomes the literal string `"None"`, so its lamp
count is the number of fixture rows whose identifier is literally
`"None"` — `0`, and hence `streetlamp_score` `0`, unless such rows exist
and are silently joined. -/
theorem claim_c10 (rows : List (Option String)) (f : Feature)
    (hmiss : f.props.lookup "STREETSEGID" = none)
    (hlen : goodLen f = true) :
    featureSegid f.props = "None"
    ∧ getCount (lampCounts rows) (featureSegid f.props) =
        rows.countP (fun r => r == some "None")
    ∧ ∃ f₂, joinFeature (lampCounts rows) f = .ok f₂
        ∧ (rows.countP (fun r => r == some "None") = 0 →
            f₂.props.lookup "streetlamp_score" = some (.vnum 0)) := by
  have hseg : featureSegid f.props = "None" := by
    unfold featureSegid propGet
    rw [hmiss]
    rfl
  have hcount : getCount (lampCounts rows) (featureSegid f.props) =
      rows.countP (fun r => r == some "None") := by
    rw [hseg, getCount_lampCounts, if_neg (by decide : ¬("None" = ""))]
  refine ⟨hseg, hcount, ?_⟩
  refine ⟨joinedFeature (lampCounts rows) f, joinFeature_ok _ f hlen, ?_⟩
  intro hzero
  have hc0 : getCount (lampCounts rows) (featureSegid f.props) = 0 :=
    hcount.trans hzero
  have hscore : scoreOf (lampCounts rows) f = 0 := by
    unfold scoreOf
    cases hv : propGet f.props "segment_length_m" with
    | vnone => rfl
    | vstr s => rfl
    | vnum q =>
        by_cases hq : 0 < q
        · simp only [hq, if_true, hc0, Nat.cast_zero, zero_div]
        · simp [hq]
  show (dictSet f.props "streetlamp_score"
      (.vnum (scoreOf (lampCounts rows) f))).lookup "streetlamp_score" =
    some (.vnum 0)
  rw [lookup_dictSet, hscore]
  simp

/-- C10 witness: an identifier-less feature keyed as `"None"` picks up the
one CSV row whose identifier is literally `"None"`. -/
theorem claim_c10_witness :
    featureSegid ([] : List (String × PVal)) = "None"
    ∧ getCount (lampCounts [some "None", some "X"]) "None" = 1
    ∧ ∃ f₂, joinFeature (lampCounts [some "X"])
        (⟨Geom.other "", []⟩ : Feature) = .ok f₂
        ∧ f₂.props.lookup "streetlamp_score" = some (.vnum 0) := by
  have h := claim_c10 [some "None", some "X"] ⟨Geom.other "", []⟩ rfl rfl
  have h2 := claim_c10 [some "X"] ⟨Geom.other "", []⟩ rfl rfl
  refine ⟨h.1, ?_, ?_⟩
  · have hc := h.2.1
    rw [h.1] at hc
    exact hc.trans (by decide)
  · obtain ⟨f₂, hf, hs⟩ := h2.2.2
    exact ⟨f₂, hf, hs (by decide)⟩

/-- C8.  The zero-lamp sample listing has at most 10 entries, is ordered
by descending physical length, draws exactly from the first ten collected
zero-score entries, prints identifier, street name and one-decimal
length per entry, and the street name defaults to `"Unknown"` when the
`FULLNAME` key is absent. -/
theorem claim_c8 (feats : List Feature) :
    (sampleListing feats).length ≤ 10
    ∧ (sampleListing feats).Pairwise (fun a b => b.2.2 ≤ a.2.2)
    ∧ (sampleListing feats).Perm ((zeroLampSegments feats).take 10)
    ∧ samplePrinted feats = (sampleListing feats).map renderEntry
    ∧ (∀ e ∈ sampleListing feats, ∃ f ∈ feats, isZeroScore f.props = true ∧
        e = (featureSegid f.props, zeroName f.props, zeroLen f.props))
    ∧ (∀ props : List (String × PVal), props.lookup "FULLNAME" = none →
        zeroName props = .vstr "Unknown") := by
  refine ⟨?_, sampleListing_sorted feats, List.mergeSort_perm _ _, rfl, ?_, ?_⟩
  · rw [sampleListing, List.length_mergeSort, List.length_take]
    exact min_le_left _ _
  · intro e he
    have he2 : e ∈ (zeroLampSegments feats).take 10 :=
      ((List.mergeSort_perm _ byLenDesc).mem_iff).mp he
    have he3 : e ∈ zeroLampSegments feats := List.take_subset 10 _ he2
    rw [zeroLampSegments, List.mem_filterMap] at he3
    obtain ⟨f, hf, hef⟩ := he3
    by_cases hz : isZeroScore f.props = true
    · rw [if_pos hz] at hef
      exact ⟨f, hf, hz, (Option.some.inj hef).symm⟩
    · rw [if_neg hz] at hef
      exact absurd hef (by simp)
  · intro props hnone
    unfold zeroName
    rw [hnone]
    rfl

/-- C8 witness: two concrete zero-score features; the longer one's entry
appears in the listing, carrying the `"Unknown"` name default. -/
theorem claim_c8_witness :
    (sampleListing
        ([⟨Geom.other "", [("STREETSEGID", PVal.vstr "Z1"),
            ("segment_length_m", PVal.vnum 1)]⟩,
          ⟨Geom.other "", [("STREETSEGID", PVal.vstr "Z2"),
            ("segment_length_m", PVal.vnum 5),
            ("streetlamp_score", PVal.vnum 0)]⟩] : List Feature)).length ≤ 10
    ∧ ("Z2", PVal.vstr "Unknown", (5 : ℚ)) ∈ sampleListing
        ([⟨Geom.other "", [("STREETSEGID", PVal.vstr "Z1"),
            ("segment_length_m", PVal.vnum 1)]⟩,
          ⟨Geom.other "", [("STREETSEGID", PVal.vstr "Z2"),
            ("segment_length_m", PVal.vnum 5),
            ("streetlamp_score", PVal.vnum 0)]⟩] : List Feature)
    ∧ (∃ f ∈ ([⟨Geom.other "", [("STREETSEGID", PVal.vstr "Z1"),
            ("segment_length_m", PVal.vnum 1)]⟩,
          ⟨Geom.other "", [("STREETSEGID", PVal.vstr "Z2"),
            ("segment_length_m", PVal.vnum 5),
            ("streetlamp_score", PVal.vnum 0)]⟩] : List Feature),
        isZeroScore f.props = true ∧
          ("Z2", PVal.vstr "Unknown", (5 : ℚ)) =
            (featureSegid f.props, zeroName f.props, zeroLen f.props))
    ∧ zeroName ([] : List (String × PVal)) = .vstr "Unknown" := by
  have h := claim_c8
    ([⟨Geom.other "", [("STREETSEGID", PVal.vstr "Z1"),
        ("segment_length_m", PVal.vnum 1)]⟩,
      ⟨Geom.other "", [("STREETSEGID", PVal.vstr "Z2"),
        ("segment_length_m", PVal.vnum 5),
        ("streetlamp_score", PVal.vnum 0)]⟩] : List Feature)
  have hlist : sampleListing
      ([⟨Geom.other "", [("STREETSEGID", PVal.vstr "Z1"),
          ("segment_length_m", PVal.vnum 1)]⟩,
        ⟨Geom.other "", [("STREETSEGID", PVal.vstr "Z2"),
          ("segment_length_m", PVal.vnum 5),
          ("streetlamp_score", PVal.vnum 0)]⟩] : List Feature) =
      [("Z2", PVal.vstr "Unknown", (5 : ℚ)),
        ("Z1", PVal.vstr "Unknown", (1 : ℚ))] := by
    have hz : (zeroLampSegments
        ([⟨Geom.other "", [("STREETSEGID", PVal.vstr "Z1"),
            ("segment_length_m", PVal.vnum 1)]⟩,
          ⟨Geom.other "", [("STREETSEGID", PVal.vstr "Z2"),
            ("segment_length_m", PVal.vnum 5),
            ("streetlamp_score", PVal.vnum 0)]⟩] : List Feature)).take 10 =
        [("Z1", PVal.vstr "Unknown", (1 : ℚ)),
          ("Z2", PVal.vstr "Unknown", (5 : ℚ))] := by decide
    rw [sampleListing, hz]
    simp [List.mergeSort, List.merge, byLenDesc]
  have hmem : ("Z2", PVal.vstr "Unknown", (5 : ℚ)) ∈ sampleListing
      ([⟨Geom.other "", [("STREETSEGID", PVal.vstr "Z1"),
          ("segment_length_m", PVal.vnum 1)]⟩,
        ⟨Geom.other "", [("STREETSEGID", PVal.vstr "Z2"),
          ("segment_length_m", PVal.vnum 5),
          ("streetlamp_score", PVal.vnum 0)]⟩] : List Feature) := by
    rw [hlist]
    exact List.mem_cons_self _ _
  exact ⟨h.1, hmem, h.2.2.2.2.1 _ hmem, h.2.2.2.2.2 [] rfl⟩

/-- C9.  The printed lamp-count distribution consists of lines for the
(at most) 5 lowest and the (at most) 5 highest distinct observed
lamp-count values — ordered by count value, every omitted value lying
strictly between the two printed blocks — separated by the ellipsis
marker, so the output never exceeds 11 lines. -/
theorem claim_c9 (rows : List (Option String)) :
    histPrinted rows =
      ((histKeysSorted rows).take 5).map (histLine rows) ++
        "..." :: (((histKeysSorted rows).drop
          ((histKeysSorted rows).length - 5)).map (histLine rows))
    ∧ (histPrinted rows).length ≤ 11
    ∧ (histKeysSorted rows).Pairwise (· < ·)
    ∧ (∀ v, v ∈ histKeysSorted rows ↔ v ∈ lampValues rows)
    ∧ (∀ x ∈ (histKeysSorted rows).take 5, ∀ y ∈ histKeysSorted rows,
        y ∉ (histKeysSorted rows).take 5 → x < y)
    ∧ (∀ x ∈ (histKeysSorted rows).drop ((histKeysSorted rows).length - 5),
        ∀ y ∈ histKeysSorted rows,
        y ∉ (histKeysSorted rows).drop ((histKeysSorted rows).length - 5) →
          y < x) := by
  refine ⟨rfl, ?_, histKeysSorted_pairwise_lt rows,
    fun v => mem_histKeysSorted rows v, ?_, ?_⟩
  · show ((((histKeysSorted rows).take 5).map (histLine rows)).append
        ("..." :: (((histKeysSorted rows).drop
          ((histKeysSorted rows).length - 5)).map (histLine rows)))).length ≤ 11
    rw [List.append_eq, List.length_append, List.length_map, List.length_take,
      List.length_cons, List.length_map, List.length_drop]
    omega
  · intro x hx y hy hyn
    have hpw := histKeysSorted_pairwise_lt rows
    rw [← List.take_append_drop 5 (histKeysSorted rows)] at hpw
    have hcross := (List.pairwise_append.mp hpw).2.2
    have hy2 : y ∈ (histKeysSorted rows).take 5 ++
        (histKeysSorted rows).drop 5 := by
      rw [List.take_append_drop]
      exact hy
    rcases List.mem_append.mp hy2 with hy3 | hy3
    · exact absurd hy3 hyn
    · exact hcross x hx y hy3
  · intro x hx y hy hyn
    have hpw := histKeysSorted_pairwise_lt rows
    rw [← List.take_append_drop ((histKeysSorted rows).length - 5)
      (histKeysSorted rows)] at hpw
    have hcross := (List.pairwise_append.mp hpw).2.2
    have hy2 : y ∈ (histKeysSorted rows).take
        ((histKeysSorted rows).length - 5) ++
        (histKeysSorted rows).drop ((histKeysSorted rows).length - 5) := by
      rw [List.take_append_drop]
      exact hy
    rcases List.mem_append.mp hy2 with hy3 | hy3
    · exact hcross y hy3 x hx
    · exact absurd hy3 hyn

/-- C9 witness: six distinct lamp-count values 1..6; the printed blocks
are `[1,2,3,4,5]` and `[2,3,4,5,6]`, and the lowest printed value is below
the highest. -/
theorem claim_c9_witness :
    histKeysSorted [some "a", some "b", some "b", some "c", some "c",
        some "c", some "d", some "d", some "d", some "d", some "e",
        some "e", some "e", some "e", some "e", some "f", some "f",
        some "f", some "f", some "f", some "f"] = [1, 2, 3, 4, 5, 6]
    ∧ (histPrinted [some "a", some "b", some "b", some "c", some "c",
        some "c", some "d", some "d", some "d", some "d", some "e",
        some "e", some "e", some "e", some "e", some "f", some "f",
        some "f", some "f", some "f", some "f"]).length ≤ 11
    ∧ 1 < 6 := by
  have h := claim_c9 [some "a", some "b", some "b", some "c", some "c",
    some "c", some "d", some "d", some "d", some "d", some "e",
    some "e", some "e", some "e", some "e", some "f", some "f",
    some "f", some "f", some "f", some "f"]
  have hkeys : histKeysSorted [some "a", some "b", some "b", some "c",
      some "c", some "c", some "d", some "d", some "d", some "d", some "e",
      some "e", some "e", some "e", some "e", some "f", some "f",
      some "f", some "f", some "f", some "f"] = [1, 2, 3, 4, 5, 6] := by
    have hd : dictKeys (histCounter (lampValues [some "a", some "b",
        some "b", some "c", some "c", some "c", some "d", some "d",
        some "d", some "d", some "e", some "e", some "e", some "e",
        some "e", some "f", some "f", some "f", some "f", some "f",
        some "f"])) = [1, 2, 3, 4, 5, 6] := by decide
    rw [histKeysSorted, hd]
    simp [List.mergeSort, List.merge, natLeB]
  refine ⟨hkeys, h.2.1, ?_⟩
  refine h.2.2.2.2.1 1 ?_ 6 ?_ ?_
  · rw [hkeys]
    decide
  · rw [hkeys]
    decide
  · rw [hkeys]
    decide

end StreetSmart
